import Mathlib

/-!
Shallow embedding of the comment-extraction core of the repository
(youtube-comment-extractor): the identifier resolver `extractVideoId`,
the keyword matcher `matchesKeywords` / `evaluateExpression`, and the
extraction orchestrator `extractCommentsFromVideos`.

Strings are modelled via their character lists.  JavaScript regular
expressions used by the source are small and fixed, and are embedded as
explicit character scanners with the same leftmost-match, greedy
semantics.  `Date` values are modelled as milliseconds since the epoch
(a natural number) with calendar dates as day indices, assuming a UTC
runtime: `new Date("YYYY-MM-DD")` is day·86400000 ms and
`setHours(23,59,59,999)` adds 86399999 ms.
-/

namespace YTC

/-- JavaScript `\s` character class (the members expressible in Unicode
scalar values; all used inputs are ASCII). -/
def jsIsSpace (c : Char) : Bool :=
  c = ' ' ∨ c = '\t' ∨ c = '\n' ∨ c = '\r' ∨ c = '\x0b' ∨ c = '\x0c' ∨
  c = ' ' ∨ c = ' ' ∨ (' ' ≤ c ∧ c ≤ ' ') ∨
  c = ' ' ∨ c = ' ' ∨ c = ' ' ∨ c = ' ' ∨
  c = '　' ∨ c = '﻿'

/-- JavaScript line terminators (what `.` does not match). -/
def isLineTerm (c : Char) : Bool :=
  c = '\n' ∨ c = '\r' ∨ c = ' ' ∨ c = ' '

/-- JavaScript `String.prototype.trim` on a character list. -/
def jsTrimChars (l : List Char) : List Char :=
  ((l.dropWhile jsIsSpace).reverse.dropWhile jsIsSpace).reverse

/-- JavaScript `String.prototype.toLowerCase` (ASCII part). -/
def lowerChars (l : List Char) : List Char :=
  l.map Char.toLower

/-- JavaScript `String.prototype.trim` as a `String` operation. -/
def jsTrim (s : String) : String :=
  ⟨jsTrimChars s.data⟩

/-- JavaScript `String.prototype.toLowerCase` as a `String` operation. -/
def jsToLower (s : String) : String :=
  ⟨lowerChars s.data⟩

/-- Does `hay` start with `pre`? -/
def startsWithChars : List Char → List Char → Bool
  | _, [] => true
  | [], _ :: _ => false
  | c :: cs, p :: ps => c = p && startsWithChars cs ps

/-- JavaScript `String.prototype.includes`: substring containment. -/
def containsChars : List Char → List Char → Bool
  | hay, needle =>
    match hay with
    | [] => needle.isEmpty
    | _ :: t => startsWithChars hay needle || containsChars t needle

/-- `String` form of `containsChars` (JavaScript `includes`). -/
def jsIncludes (hay needle : String) : Bool :=
  containsChars hay.data needle.data

/-- JavaScript `split(',')` on a character list. -/
def splitComma : List Char → List (List Char)
  | [] => [[]]
  | c :: rest =>
    if c = ',' then [] :: splitComma rest
    else
      match splitComma rest with
      | [] => [[c]]
      | p :: ps => (c :: p) :: ps

/-- Drop a literal token (given in lowercase) from the front of `s`,
matching case-insensitively; `none` if `s` does not start with it. -/
def dropTokCI : List Char → List Char → Option (List Char)
  | [], s => some s
  | _ :: _, [] => none
  | t :: ts, c :: cs => if c.toLower = t then dropTokCI ts cs else none

/-- Match the regex `\s+TOK\s+` (case-insensitive, greedy) at the start
of `s`; returns the remaining characters after the match.  Because the
token starts with a letter, the greedy whitespace runs are forced and no
backtracking arises. -/
def matchSepRest (tok : List Char) (s : List Char) : Option (List Char) :=
  let s1 := s.dropWhile jsIsSpace
  if s1.length = s.length then none
  else
    match dropTokCI tok s1 with
    | none => none
    | some s2 =>
      let s3 := s2.dropWhile jsIsSpace
      if s3.length = s2.length then none else some s3

/-- Splitter for JavaScript `split(/\s+TOK\s+/i)`: scan left to right,
breaking at each leftmost separator match.  `cur` holds the current part
reversed; `fuel` bounds the recursion (initialised to the length of the
input, which the invariant keeps sufficient). -/
def splitTokAux (tok : List Char) : Nat → List Char → List Char → List (List Char)
  | _, cur, [] => [cur.reverse]
  | 0, cur, s => [cur.reverse ++ s]
  | fuel + 1, cur, c :: rest =>
    match matchSepRest tok (c :: rest) with
    | some rest2 => cur.reverse :: splitTokAux tok fuel [] rest2
    | none => splitTokAux tok fuel (c :: cur) rest

/-- JavaScript `s.split(/\s+TOK\s+/i)` for a fixed lowercase token. -/
def splitTok (tok : List Char) (s : List Char) : List (List Char) :=
  splitTokAux tok s.length [] s

/-- Count of leading characters satisfying `p`. -/
def countLeading (p : Char → Bool) : List Char → Nat
  | [] => 0
  | c :: rest => if p c then countLeading p rest + 1 else 0

/-- Match the regex `^\s*NOT\s+(.+)$` (case-insensitive, `.` excluding
line terminators) against `s`, returning the capture group.  The greedy
`\s+` backtracks one character when the remainder would otherwise be
empty, provided that character is not a line terminator. -/
def notRemainder (s : List Char) : Option (List Char) :=
  let s1 := s.dropWhile jsIsSpace
  match dropTokCI ['n', 'o', 't'] s1 with
  | none => none
  | some s2 =>
    let w := countLeading jsIsSpace s2
    let r := s2.drop w
    if w = 0 then none
    else if r ≠ [] then
      if r.any isLineTerm then none else some r
    else
      match (s2.take w).getLast? with
      | some last => if 2 ≤ w ∧ ¬ isLineTerm last then some [last] else none
      | none => none

/-- One AND-part of the expression: either a `NOT term` (negated
substring test) or a plain substring test of the trimmed part. -/
def evalAndPart (text part : List Char) : Bool :=
  match notRemainder part with
  | some term => ! containsChars text (jsTrimChars term)
  | none => containsChars text (jsTrimChars part)

/-- Source `evaluateExpression`: split on `OR` (case-insensitive,
whitespace-delimited), each part split on `AND`, each AND-part tested
with the optional leading `NOT`.  `text` and `expr` are already
lowercased by the caller, as in the source. -/
def evaluateExpression (text expr : List Char) : Bool :=
  let orParts := (splitTok ['o', 'r'] expr).map jsTrimChars
  orParts.any fun orPart =>
    let andParts := (splitTok ['a', 'n', 'd'] orPart).map jsTrimChars
    andParts.all fun andPart => evalAndPart text andPart

/-- Source `matchesKeywords`: empty/whitespace-only expressions always
match; otherwise lowercase both sides, split on commas (comma = OR) into
trimmed non-empty clauses; with more than one clause, any clause
matching suffices, otherwise the whole lowercased expression is
evaluated as one expression.  The source wraps the body in `try/catch`
with an OR-over-terms fallback, but the body consists of total string
operations and cannot throw, so the fallback is unreachable and not
modelled. -/
def matchesKeywords (text keywords : String) : Bool :=
  if keywords = "" ∨ jsTrimChars keywords.data = [] then true
  else
    let lowerText := lowerChars text.data
    let lowerKeywords := lowerChars keywords.data
    let commaParts := ((splitComma lowerKeywords).map jsTrimChars).filter (· ≠ [])
    if 1 < commaParts.length then
      commaParts.any fun part => evaluateExpression lowerText part
    else
      evaluateExpression lowerText lowerKeywords

/-! ## Identifier resolver (`extractVideoId`) -/

/-- Characters excluded by the capture class `[^&\n?#]` of the first
URL pattern. -/
def isSpecialCapture (c : Char) : Bool :=
  c = '&' ∨ c = '\n' ∨ c = '?' ∨ c = '#'

/-- Greedy capture `([^&\n?#]+)`: the maximal run of non-excluded
characters, which must be non-empty. -/
def extractCapture (s : List Char) : Option (List Char) :=
  let run := s.takeWhile fun c => ! isSpecialCapture c
  if run = [] then none else some run

/-- Drop an exact literal from the front of `s` (case-sensitive). -/
def dropLit : List Char → List Char → Option (List Char)
  | [], s => some s
  | _ :: _, [] => none
  | t :: ts, c :: cs => if c = t then dropLit ts cs else none

/-- Try the alternation
`(?:youtube\.com\/watch\?v=|youtu\.be\/|youtube\.com\/embed\/)([^&\n?#]+)`
at the start of `s`, alternatives in source order. -/
def tryMarkersAt (s : List Char) : Option (List Char) :=
  match dropLit "youtube.com/watch?v=".data s with
  | some rest => extractCapture rest
  | none =>
    match dropLit "youtu.be/".data s with
    | some rest => extractCapture rest
    | none =>
      match dropLit "youtube.com/embed/".data s with
      | some rest => extractCapture rest
      | none => none

/-- Unanchored leftmost-match search for the first URL pattern. -/
def scanUrl : List Char → Option (List Char)
  | [] => none
  | c :: rest =>
    match tryMarkersAt (c :: rest) with
    | some cap => some cap
    | none => scanUrl rest

/-- Character class `[a-zA-Z0-9_-]` of the bare-identifier pattern. -/
def isIdChar (c : Char) : Bool :=
  ('a' ≤ c ∧ c ≤ 'z') ∨ ('A' ≤ c ∧ c ≤ 'Z') ∨ ('0' ≤ c ∧ c ≤ '9') ∨
  c = '_' ∨ c = '-'

/-- Source `extractVideoId`: try the URL pattern (unanchored), then the
anchored bare-identifier pattern `^([a-zA-Z0-9_-]{11})$`; `none` models
the source's `null`. -/
def extractVideoId (url : String) : Option String :=
  match scanUrl url.data with
  | some cap => some ⟨cap⟩
  | none =>
    if url.data.length = 11 ∧ url.data.all isIdChar then some url
    else none

/-! ## Extraction orchestrator (`extractCommentsFromVideos`)

The remote backend is an external collaborator; it is modelled as an
oracle (`Env`) answering each call by its sequence number (and the
arguments passed), covering every possible interaction, including calls
that fail.  The cooperative abort signal is monotone — once aborted it
stays aborted — and is observed only at the source's discrete check
sites; it is modelled by the index of the first check that observes it
(`abortAfter`, `none` = never).  A thrown JavaScript error is modelled
as the `Option String` component of each result (the error message);
the final state is kept alongside so delivered progress snapshots
remain observable.  `onProgress` is modelled as always supplied,
recording each delivered snapshot in `RunState.progress`. -/

/-- One raw top-level comment thread as consumed by the source
(`thread.id` plus the `topLevelComment.snippet` fields).  The platform
timestamp is in epoch milliseconds; `likeCount` may be absent
(the source applies `|| 0`). -/
structure RawComment where
  id : String
  authorDisplayName : String
  textDisplay : String
  publishedAtMs : Nat
  likeCount : Option Nat

/-- The fields of one entry of `videoData.items` that the source reads. -/
structure VideoInfo where
  title : String

/-- One response of the comments endpoint. -/
structure CommentsPage where
  items : List RawComment
  nextPageToken : Option String

/-- Oracle for the two backend operations; the first argument is the
per-operation call sequence number, making nondeterministic remote
behaviour expressible. -/
structure Env where
  videoDetails : Nat → String → Except String (List VideoInfo)
  commentsPage : Nat → String → Option String → Except String CommentsPage

/-- The extracted record pushed onto `allComments` (src/types.ts
`Comment`); `publishedAt.toISOString().split("T")[0]` is modelled as
the calendar day index `publishedAtMs / 86400000`. -/
structure Comment where
  id : String
  author : String
  text : String
  videoUrl : String
  videoTitle : String
  publishedDay : Nat
  likeCount : Nat
  deriving DecidableEq

/-- Mutable run state: the accumulator, the seen-id set (as its
insertion-ordered list), the delivered progress snapshots, and the
call/check sequence counters. -/
structure RunState where
  allComments : List Comment
  seen : List String
  progress : List (List Comment)
  checks : Nat
  vdCalls : Nat
  cpCalls : Nat

/-- Caller-supplied filters plus the abort model. -/
structure Params where
  startDay : Nat
  endDay : Nat
  keywords : String
  abortAfter : Option Nat

def msPerDay : Nat := 86400000

/-- Is the abort signal observed at check number `c`? -/
def abortedAt (abortAfter : Option Nat) (c : Nat) : Bool :=
  match abortAfter with
  | none => false
  | some n => n ≤ c

/-- The record pushed at source lines 198-206. -/
def mkComment (url title : String) (r : RawComment) : Comment :=
  { id := r.id
    author := r.authorDisplayName
    text := r.textDisplay
    videoUrl := url
    videoTitle := title
    publishedDay := r.publishedAtMs / msPerDay
    likeCount := r.likeCount.getD 0 }

/-- The date-range test: the record is kept unless
`publishedAt < start || publishedAt > end` (after `end` was pushed to
23:59:59.999 of its day). -/
def dateKeep (startMs endMs t : Nat) : Bool :=
  if t < startMs ∨ endMs < t then false else true

/-- The keyword test as guarded in the source:
`if (keywords && !matchesKeywords(text, keywords)) continue`. -/
def keywordSkip (keywords text : String) : Bool :=
  decide (keywords ≠ "") && ! matchesKeywords text keywords

/-- The per-page `for (const thread of commentThreads)` loop: date
filter, keyword filter, de-duplication against the seen-set, push. -/
def foldThreads (p : Params) (url title : String) :
    List RawComment → RunState → RunState
  | [], st => st
  | r :: rs, st =>
    let startMs := p.startDay * msPerDay
    let endMs := p.endDay * msPerDay + 86399999
    if ! dateKeep startMs endMs r.publishedAtMs then
      foldThreads p url title rs st
    else if keywordSkip p.keywords r.textDisplay then
      foldThreads p url title rs st
    else if st.seen.contains r.id then
      foldThreads p url title rs st
    else
      foldThreads p url title rs
        { st with
          allComments := st.allComments ++ [mkComment url title r]
          seen := st.seen ++ [r.id] }

/-- `onProgress([...allComments])`: deliver a copy of the accumulator. -/
def recordProgress (st : RunState) : RunState :=
  { st with progress := st.progress ++ [st.allComments] }

/-- The `do … while (pageToken && pageCount < MAX_PAGES)` loop.  `fuel`
is `MAX_PAGES - pageCount` at entry (initially 10); the loop continues
after a page exactly when a continuation token was returned and the
incremented page count is still below the ceiling, i.e. when the
remaining fuel is positive.  A failed page fetch breaks out of the loop
(both catch branches of the source `break`). -/
def pagesLoop (env : Env) (p : Params) (videoId url title : String) :
    Nat → Option String → RunState → RunState × Option String
  | 0, _, st => (st, none)
  | fuel + 1, pageToken, st =>
    if abortedAt p.abortAfter st.checks then
      (st, some "Extraction cancelled")
    else
      let st1 := { st with checks := st.checks + 1 }
      let st2 := { st1 with cpCalls := st1.cpCalls + 1 }
      match env.commentsPage st1.cpCalls videoId pageToken with
      | .error _ => (st2, none)
      | .ok page =>
        let st3 := recordProgress (foldThreads p url title page.items st2)
        match page.nextPageToken with
        | none => (st3, none)
        | some tok =>
          if 0 < fuel then pagesLoop env p videoId url title fuel (some tok) st3
          else (st3, none)

/-- One iteration of the `for (const url of urls)` loop: abort check,
resolve, metadata fetch (failures and empty `items` skip the
reference), then the pagination loop. -/
def processUrl (env : Env) (p : Params) (url : String) (st : RunState) :
    RunState × Option String :=
  if abortedAt p.abortAfter st.checks then
    (st, some "Extraction cancelled")
  else
    let st1 := { st with checks := st.checks + 1 }
    match extractVideoId url with
    | none => (st1, none)
    | some videoId =>
      let st2 := { st1 with vdCalls := st1.vdCalls + 1 }
      match env.videoDetails st1.vdCalls videoId with
      | .error _ => (st2, none)
      | .ok [] => (st2, none)
      | .ok (v :: _) => pagesLoop env p videoId url v.title 10 none st2

/-- The outer `for` loop over the raw references. -/
def urlsLoop (env : Env) (p : Params) : List String → RunState → RunState × Option String
  | [], st => (st, none)
  | u :: us, st =>
    match processUrl env p u st with
    | (st', some e) => (st', some e)
    | (st', none) => urlsLoop env p us st'

def initState : RunState :=
  { allComments := [], seen := [], progress := [],
    checks := 0, vdCalls := 0, cpCalls := 0 }

/-- Source `extractCommentsFromVideos`.  The check before the `try`
throws the bare `'Extraction cancelled'` error; any error escaping the
loop — which the source's local catches limit to the in-loop
cancellation throws — is caught by the outer catch and rethrown as
`` `Failed to fetch comments: ${error}` ``, where interpolating an
`Error` yields `"Error: <message>"`.  The result pairs the final state
(whose `progress` field lists the delivered snapshots) with the thrown
message, if any; on `none` the value returned to the caller is
`allComments` of the final state. -/
def runExtract (env : Env) (urls : List String) (p : Params) :
    RunState × Option String :=
  if abortedAt p.abortAfter 0 then
    (initState, some "Extraction cancelled")
  else
    let st0 := { initState with checks := 1 }
    match urlsLoop env p urls st0 with
    | (st, some e) => (st, some ("Failed to fetch comments: Error: " ++ e))
    | (st, none) => (st, none)

/-! ## Spec-side definitions -/

/-- `listLE a b`: `a` is exactly a prefix of `b` (the spec's
"prefix-superset" relation between snapshots). -/
def listLE {α : Type} (a b : List α) : Prop :=
  ∃ t, b = a ++ t

/-- Modelled from the spec: keep the first occurrence of each `id`
(relative to an initial seen-set), in order — the spec's description of
de-duplicated accumulation. -/
def firstOccur (seen : List String) : List RawComment → List RawComment
  | [] => []
  | r :: rs =>
    if seen.contains r.id then firstOccur seen rs
    else r :: firstOccur (seen ++ [r.id]) rs

/-- The combined per-record filter (date test passes and the keyword
guard does not skip). -/
def passesFilters (p : Params) (r : RawComment) : Bool :=
  dateKeep (p.startDay * msPerDay) (p.endDay * msPerDay + 86399999)
      r.publishedAtMs &&
    ! keywordSkip p.keywords r.textDisplay

/-! ## Lemmas -/

theorem listLE_refl {α : Type} (a : List α) : listLE a a :=
  ⟨[], by simp⟩

theorem listLE_of_append {α : Type} (a t : List α) : listLE a (a ++ t) :=
  ⟨t, rfl⟩

theorem listLE_trans {α : Type} {a b c : List α}
    (h1 : listLE a b) (h2 : listLE b c) : listLE a c := by
  obtain ⟨t, rfl⟩ := h1
  obtain ⟨u, rfl⟩ := h2
  exact ⟨t ++ u, by simp⟩

/-- `foldThreads` appends exactly the first occurrences (relative to
the current seen-set) of the records passing both filters, converted by
`mkComment`, extending the seen-set by their ids and leaving every
other field of the state untouched. -/
theorem foldThreads_eq (p : Params) (url title : String)
    (rs : List RawComment) (st : RunState) :
    foldThreads p url title rs st =
      { st with
        allComments := st.allComments ++
          (firstOccur st.seen (rs.filter (passesFilters p))).map
            (mkComment url title)
        seen := st.seen ++
          (firstOccur st.seen (rs.filter (passesFilters p))).map
            RawComment.id } := by
  induction rs generalizing st with
  | nil => simp [foldThreads, firstOccur]
  | cons r rs ih =>
    by_cases hd : dateKeep (p.startDay * msPerDay)
        (p.endDay * msPerDay + 86399999) r.publishedAtMs
    · by_cases hk : keywordSkip p.keywords r.textDisplay
      · have hpass : passesFilters p r = false := by
          simp [passesFilters, hd, hk]
        simp [foldThreads, hd, hk, hpass, ih]
      · have hpass : passesFilters p r = true := by
          simp [passesFilters, hd, hk]
        by_cases hs : r.id ∈ st.seen
        · have hsc : st.seen.contains r.id = true := by
            simpa [List.elem_eq_mem] using hs
          simp [foldThreads, hd, hk, hsc, hpass, firstOccur, hs, ih]
        · have hsc : st.seen.contains r.id = false := by
            simp [List.elem_eq_mem, hs]
          simp only [foldThreads, hd, hk, hsc, hpass, Bool.not_true,
            Bool.false_eq_true, if_false, if_true, List.filter_cons,
            firstOccur, ite_true, ite_false]
          rw [ih]
          simp [firstOccur, hs, hsc, mkComment, List.append_assoc]
    · have hpass : passesFilters p r = false := by
        simp [passesFilters, hd]
      simp [foldThreads, hd, hpass, ih]

/-- Records produced by `firstOccur` have ids outside the initial
seen-set. -/
theorem firstOccur_not_seen :
    ∀ (rs : List RawComment) (seen : List String) (r : RawComment),
      r ∈ firstOccur seen rs → r.id ∉ seen := by
  intro rs
  induction rs with
  | nil => intro seen r h; simp [firstOccur] at h
  | cons x rs ih =>
    intro seen r h
    by_cases hx : seen.contains x.id = true
    · rw [firstOccur, if_pos hx] at h
      exact ih seen r h
    · rw [firstOccur, if_neg hx] at h
      rcases List.mem_cons.mp h with h1 | h1
      · subst h1
        intro hmem
        exact hx (by simpa [List.elem_eq_mem] using hmem)
      · intro hmem
        exact ih (seen ++ [x.id]) r h1 (by simp [hmem])

/-- The ids kept by `firstOccur` are pairwise distinct. -/
theorem firstOccur_ids_nodup :
    ∀ (rs : List RawComment) (seen : List String),
      ((firstOccur seen rs).map RawComment.id).Nodup := by
  intro rs
  induction rs with
  | nil => intro seen; simp [firstOccur]
  | cons x rs ih =>
    intro seen
    by_cases hx : seen.contains x.id
    · rw [firstOccur, if_pos hx]; exact ih seen
    · rw [firstOccur, if_neg hx]
      refine List.nodup_cons.mpr ⟨?_, ih (seen ++ [x.id])⟩
      intro hmem
      obtain ⟨r, hr, hid⟩ := List.mem_map.mp hmem
      exact firstOccur_not_seen rs (seen ++ [x.id]) r hr (by simp [hid])

/-- Run invariant: the seen-set lists exactly the accumulated ids, with
no duplicates; delivered snapshots grow by appending only; every
snapshot is a prefix of the current accumulator; and the accumulator
changed only at snapshot boundaries (the last delivered snapshot, when
one exists, is the current accumulator). -/
def Inv (st : RunState) : Prop :=
  st.seen = st.allComments.map Comment.id ∧
  st.seen.Nodup ∧
  List.Pairwise listLE st.progress ∧
  (∀ s ∈ st.progress, listLE s st.allComments) ∧
  (st.progress.getLast? = some st.allComments ∨
    (st.progress = [] ∧ st.allComments = []))

theorem initState_inv : Inv initState := by
  refine ⟨rfl, List.nodup_nil, List.Pairwise.nil, ?_, Or.inr ⟨rfl, rfl⟩⟩
  intro s hs
  simp [initState] at hs

/-- The invariant only mentions the list-valued fields, so changing the
counters preserves it. -/
theorem Inv_update (st : RunState) (c v q : Nat) (h : Inv st) :
    Inv { allComments := st.allComments, seen := st.seen,
          progress := st.progress, checks := c, vdCalls := v,
          cpCalls := q } := h

/-- Processing one page (the thread fold followed by the progress
delivery) preserves the invariant. -/
theorem processPage_inv (p : Params) (url title : String)
    (rs : List RawComment) (st : RunState) (h : Inv st) :
    Inv (recordProgress (foldThreads p url title rs st)) := by
  obtain ⟨h1, h2, h3, h4, h5⟩ := h
  rw [foldThreads_eq]
  refine ⟨?_, ?_, ?_, ?_, ?_⟩
  · show st.seen ++ _ = List.map Comment.id (st.allComments ++ _)
    rw [h1, List.map_append, List.map_map]
    rfl
  · show (st.seen ++ _).Nodup
    refine List.nodup_append.mpr ⟨h2, firstOccur_ids_nodup _ _, ?_⟩
    intro x hx hmem
    obtain ⟨r, hr, hid⟩ := List.mem_map.mp hmem
    exact firstOccur_not_seen _ _ r hr (hid ▸ hx)
  · show List.Pairwise listLE (st.progress ++ [_])
    refine List.pairwise_append.mpr ⟨h3, List.pairwise_singleton _ _, ?_⟩
    intro a ha b hb
    rw [List.mem_singleton] at hb
    subst hb
    exact listLE_trans (h4 a ha) (listLE_of_append _ _)
  · show ∀ s ∈ st.progress ++ [_], listLE s _
    intro s hs
    rcases List.mem_append.mp hs with hs | hs
    · exact listLE_trans (h4 s hs) (listLE_of_append _ _)
    · rw [List.mem_singleton] at hs
      subst hs
      exact listLE_refl _
  · exact Or.inl (List.getLast?_concat _)

/-- The pagination loop preserves the invariant, whichever way it
ends. -/
theorem pagesLoop_inv (env : Env) (p : Params) (videoId url title : String) :
    ∀ (fuel : Nat) (pt : Option String) (st : RunState), Inv st →
      Inv (pagesLoop env p videoId url title fuel pt st).1 := by
  intro fuel
  induction fuel with
  | zero => intro pt st h; exact h
  | succ fuel ih =>
    intro pt st h
    rw [pagesLoop]
    by_cases ha : abortedAt p.abortAfter st.checks
    · simpa [ha] using h
    · simp only [ha, Bool.false_eq_true, if_false]
      cases hcp : env.commentsPage st.cpCalls videoId pt with
      | error e => exact h
      | ok page =>
        dsimp only
        have h2 : Inv (recordProgress (foldThreads p url title page.items
            { allComments := st.allComments, seen := st.seen,
              progress := st.progress, checks := st.checks + 1,
              vdCalls := st.vdCalls, cpCalls := st.cpCalls + 1 })) :=
          processPage_inv p url title page.items _ (Inv_update st _ _ _ h)
        cases hnt : page.nextPageToken with
        | none => exact h2
        | some tok =>
          dsimp only
          by_cases hf : 0 < fuel
          · rw [if_pos hf]
            exact ih (some tok) _ h2
          · rw [if_neg hf]
            exact h2

/-- Processing one reference preserves the invariant. -/
theorem processUrl_inv (env : Env) (p : Params) (url : String)
    (st : RunState) (h : Inv st) : Inv (processUrl env p url st).1 := by
  rw [processUrl]
  by_cases ha : abortedAt p.abortAfter st.checks
  · simpa [ha] using h
  · simp only [ha, Bool.false_eq_true, if_false]
    cases extractVideoId url with
    | none => exact h
    | some videoId =>
      dsimp only
      cases env.videoDetails st.vdCalls videoId with
      | error e => exact h
      | ok items =>
        cases items with
        | nil => exact h
        | cons v vs =>
          exact pagesLoop_inv env p videoId url v.title 10 none _
            (Inv_update st _ _ _ h)

/-- The outer reference loop preserves the invariant. -/
theorem urlsLoop_inv (env : Env) (p : Params) :
    ∀ (urls : List String) (st : RunState), Inv st →
      Inv (urlsLoop env p urls st).1 := by
  intro urls
  induction urls with
  | nil => intro st h; exact h
  | cons u us ih =>
    intro st h
    rw [urlsLoop]
    have hp := processUrl_inv env p u st h
    cases hpu : processUrl env p u st with
    | mk st' e =>
      rw [hpu] at hp
      cases e with
      | none => exact ih st' hp
      | some msg => exact hp

/-- The run invariant holds of the final state of every run. -/
theorem runExtract_inv (env : Env) (urls : List String) (p : Params) :
    Inv (runExtract env urls p).1 := by
  rw [runExtract]
  by_cases ha : abortedAt p.abortAfter 0
  · simpa [ha] using initState_inv
  · simp only [ha, Bool.false_eq_true, if_false]
    have h := urlsLoop_inv env p urls { initState with checks := 1 }
      (Inv_update initState 1 initState.vdCalls initState.cpCalls
        initState_inv)
    cases hu : urlsLoop env p urls { initState with checks := 1 } with
    | mk st e =>
      rw [hu] at h
      cases e with
      | none => exact h
      | some msg => exact h

/-- With no abort signal, the pagination loop never throws. -/
theorem pagesLoop_err (env : Env) (p : Params) (videoId url title : String) :
    ∀ (fuel : Nat) (pt : Option String) (st : RunState),
      p.abortAfter = none →
      (pagesLoop env p videoId url title fuel pt st).2 = none := by
  intro fuel
  induction fuel with
  | zero => intro pt st _; rfl
  | succ fuel ih =>
    intro pt st hab
    rw [pagesLoop]
    have ha : abortedAt p.abortAfter st.checks = false := by
      simp [abortedAt, hab]
    simp only [ha, Bool.false_eq_true, if_false]
    cases env.commentsPage st.cpCalls videoId pt with
    | error e => rfl
    | ok page =>
      dsimp only
      cases page.nextPageToken with
      | none => rfl
      | some tok =>
        dsimp only
        by_cases hf : 0 < fuel
        · rw [if_pos hf]
          exact ih (some tok) _ hab
        · rw [if_neg hf]

/-- With no abort signal, processing one reference never throws. -/
theorem processUrl_err (env : Env) (p : Params) (url : String)
    (st : RunState) (hab : p.abortAfter = none) :
    (processUrl env p url st).2 = none := by
  rw [processUrl]
  have ha : abortedAt p.abortAfter st.checks = false := by
    simp [abortedAt, hab]
  simp only [ha, Bool.false_eq_true, if_false]
  cases extractVideoId url with
  | none => rfl
  | some videoId =>
    dsimp only
    cases env.videoDetails st.vdCalls videoId with
    | error e => rfl
    | ok items =>
      cases items with
      | nil => rfl
      | cons v vs => exact pagesLoop_err env p videoId url v.title 10 none _ hab

/-- With no abort signal, the reference loop never throws. -/
theorem urlsLoop_err (env : Env) (p : Params) :
    ∀ (urls : List String) (st : RunState), p.abortAfter = none →
      (urlsLoop env p urls st).2 = none := by
  intro urls
  induction urls with
  | nil => intro st _; rfl
  | cons u us ih =>
    intro st hab
    rw [urlsLoop]
    have hp := processUrl_err env p u st hab
    cases hpu : processUrl env p u st with
    | mk st' e =>
      rw [hpu] at hp
      dsimp only at hp
      subst hp
      exact ih st' hab

/-- With no abort signal, the whole extraction returns rather than
throws, whatever the remote source does. -/
theorem runExtract_err (env : Env) (urls : List String) (p : Params)
    (hab : p.abortAfter = none) : (runExtract env urls p).2 = none := by
  rw [runExtract]
  have ha : abortedAt p.abortAfter 0 = false := by simp [abortedAt, hab]
  simp only [ha, Bool.false_eq_true, if_false]
  have h := urlsLoop_err env p urls { initState with checks := 1 } hab
  cases hu : urlsLoop env p urls { initState with checks := 1 } with
  | mk st e =>
    rw [hu] at h
    dsimp only at h
    subst h
    rfl

/-- A successful capture of the URL pattern is a non-empty run of
characters outside the excluded class. -/
theorem extractCapture_sound (s cap : List Char)
    (h : extractCapture s = some cap) :
    cap ≠ [] ∧ ∀ c ∈ cap, isSpecialCapture c = false := by
  simp only [extractCapture] at h
  by_cases hr : s.takeWhile (fun c => ! isSpecialCapture c) = []
  · rw [if_pos hr] at h
    exact absurd h (by simp)
  · rw [if_neg hr] at h
    injection h with h2
    subst h2
    refine ⟨hr, ?_⟩
    intro c hc
    simpa using List.mem_takeWhile_imp hc

/-- Any capture produced by the marker alternation is a non-empty run
of characters outside the excluded class. -/
theorem tryMarkersAt_sound (s cap : List Char)
    (h : tryMarkersAt s = some cap) :
    cap ≠ [] ∧ ∀ c ∈ cap, isSpecialCapture c = false := by
  unfold tryMarkersAt at h
  split at h
  · exact extractCapture_sound _ _ h
  · split at h
    · exact extractCapture_sound _ _ h
    · split at h
      · exact extractCapture_sound _ _ h
      · exact absurd h (by simp)

/-- Any capture produced by the unanchored URL scan is a non-empty run
of characters outside the excluded class. -/
theorem scanUrl_sound :
    ∀ (s cap : List Char), scanUrl s = some cap →
      cap ≠ [] ∧ ∀ c ∈ cap, isSpecialCapture c = false := by
  intro s
  induction s with
  | nil => intro cap h; simp [scanUrl] at h
  | cons c rest ih =>
    intro cap h
    rw [scanUrl] at h
    split at h
    · rename_i x heq
      injection h with h2
      subst h2
      exact tryMarkersAt_sound _ _ heq
    · exact ih cap h

/-- Identifier-alphabet characters are never in the excluded capture
class. -/
theorem idChar_not_special (c : Char) (h : isIdChar c = true) :
    isSpecialCapture c = false := by
  cases hs : isSpecialCapture c with
  | false => rfl
  | true =>
    exfalso
    have hm : c = '&' ∨ c = '\n' ∨ c = '?' ∨ c = '#' := by
      unfold isSpecialCapture at hs
      exact of_decide_eq_true hs
    rcases hm with rfl | rfl | rfl | rfl <;> exact absurd h (by decide)

/-! ## Claims -/

/-- C1 (code bug): cancellation observed before any work throws the
bare `'Extraction cancelled'` error, but cancellation observed mid-run
(here: at the check opening the first reference iteration, one check
after the initial one) is re-thrown by the outer catch wrapped as
`'Failed to fetch comments: Error: Extraction cancelled'` — not the
`'Extraction cancelled'` error the claim (and the UI's
`err.message === 'Extraction cancelled'` test) expects.  In both cases
the call throws and returns no collection. -/
theorem claim_c1_cancellation_message :
    (runExtract ⟨fun _ _ => .error "x", fun _ _ _ => .error "x"⟩
        ["dQw4w9WgXcQ"] ⟨0, 0, "", some 1⟩).2 =
      some "Failed to fetch comments: Error: Extraction cancelled" ∧
    (runExtract ⟨fun _ _ => .error "x", fun _ _ _ => .error "x"⟩
        ["dQw4w9WgXcQ"] ⟨0, 0, "", some 0⟩).2 =
      some "Extraction cancelled" := by
  exact ⟨by decide, by decide⟩

/-- C2: with no cancellation, the run never throws — whatever the
remote source answers, including unresolvable references, metadata
failures and page failures — and every snapshot delivered before any
such failure is a prefix of the final returned collection. -/
theorem claim_c2_subrun_failures_absorbed (env : Env) (urls : List String)
    (startDay endDay : Nat) (keywords : String) :
    (runExtract env urls ⟨startDay, endDay, keywords, none⟩).2 = none ∧
    ∀ s ∈ (runExtract env urls ⟨startDay, endDay, keywords, none⟩).1.progress,
      listLE s (runExtract env urls ⟨startDay, endDay, keywords, none⟩).1.allComments :=
  ⟨runExtract_err env urls _ rfl,
    (runExtract_inv env urls _).2.2.2.1⟩

/-- C3: across every run the accumulated ids are pairwise distinct, and
accumulation from an empty state keeps exactly the first occurrence of
each id among the records that passed both filters, at its
first-occurrence position. -/
theorem claim_c3_dedup_first_seen :
    (∀ (env : Env) (urls : List String) (p : Params),
      (((runExtract env urls p).1.allComments).map Comment.id).Nodup) ∧
    (∀ (p : Params) (url title : String) (rs : List RawComment),
      (foldThreads p url title rs initState).allComments =
        (firstOccur [] (rs.filter (passesFilters p))).map
          (mkComment url title)) := by
  constructor
  · intro env urls p
    obtain ⟨h1, h2, -, -, -⟩ := runExtract_inv env urls p
    exact h1 ▸ h2
  · intro p url title rs
    rw [foldThreads_eq]
    simp [initState]

/-- C4: in every run (completed, failed or aborted), each delivered
snapshot is exactly a prefix of every later one — never shrinking or
reordering — and is a prefix of the final accumulator, whose order is
first-seen order. -/
theorem claim_c4_progress_monotone (env : Env) (urls : List String)
    (p : Params) :
    List.Pairwise listLE (runExtract env urls p).1.progress ∧
    ∀ s ∈ (runExtract env urls p).1.progress,
      listLE s (runExtract env urls p).1.allComments :=
  ⟨(runExtract_inv env urls p).2.2.1, (runExtract_inv env urls p).2.2.2.1⟩

/-- C5: the matcher's grammar examples under the fixed precedence
(comma loosest, then OR, then AND, then NOT), case-insensitive
substring matching, and the empty/whitespace-only rule. -/
theorem claim_c5_matcher_grammar :
    matchesKeywords "great tutorial" "great, awesome" = true ∧
    matchesKeywords "a beginner tutorial" "tutorial AND beginner" = true ∧
    matchesKeywords "this is bad" "good NOT bad" = false ∧
    (∀ t : String, matchesKeywords t "" = true) ∧
    (∀ t kw : String, jsTrimChars kw.data = [] →
      matchesKeywords t kw = true) := by
  refine ⟨by decide, by decide, by decide, fun t => rfl, ?_⟩
  intro t kw h
  unfold matchesKeywords
  rw [if_pos (Or.inr h)]

/-- Witness for C5 at a concrete whitespace-only expression. -/
theorem claim_c5_matcher_grammar_witness :
    jsTrimChars ("  ".data) = [] ∧ matchesKeywords "anything" "  " = true :=
  ⟨by decide, claim_c5_matcher_grammar.2.2.2.2 "anything" "  " (by decide)⟩

/-- C6 (counterexample): the resolver can succeed with an identifier
that is not canonical — a short-link URL with a 3-character tail
resolves to that tail. -/
theorem claim_c6_canonical_counterexample :
    extractVideoId "https://youtu.be/abc" = some "abc" ∧
    ¬ ("abc".length = 11) := by
  exact ⟨by decide, by decide⟩

/-- C6 (amended): a successful resolution always yields a non-empty
identifier containing none of `&`, newline, `?`, `#`; only when no URL
pattern matched (the bare-identifier fallback) is the result guaranteed
canonical — exactly 11 characters over `[A-Za-z0-9_-]`. -/
theorem claim_c6_amended (url vid : String)
    (h : extractVideoId url = some vid) :
    vid.data ≠ [] ∧ (∀ c ∈ vid.data, isSpecialCapture c = false) ∧
    (scanUrl url.data = none →
      vid.data.length = 11 ∧ vid.data.all isIdChar) := by
  unfold extractVideoId at h
  cases hscan : scanUrl url.data with
  | some cap =>
    rw [hscan] at h
    injection h with h2
    have hc := scanUrl_sound url.data cap hscan
    subst h2
    refine ⟨hc.1, hc.2, ?_⟩
    intro hnone
    exact absurd hnone (by simp)
  | none =>
    rw [hscan] at h
    by_cases hg : url.data.length = 11 ∧ url.data.all isIdChar
    · rw [if_pos hg] at h
      injection h with h2
      subst h2
      refine ⟨?_, ?_, fun _ => hg⟩
      · intro hnil
        rw [hnil] at hg
        simp at hg
      · intro c hc
        refine idChar_not_special c ?_
        have h3 := hg.2
        rw [List.all_eq_true] at h3
        exact h3 c hc
    · rw [if_neg hg] at h
      exact absurd h (by simp)

/-- Witness for the amended C6 at a canonical bare identifier. -/
theorem claim_c6_amended_witness :
    extractVideoId "dQw4w9WgXcQ" = some "dQw4w9WgXcQ" ∧
    ("dQw4w9WgXcQ" : String).data ≠ [] ∧
    (∀ c ∈ ("dQw4w9WgXcQ" : String).data, isSpecialCapture c = false) ∧
    (scanUrl ("dQw4w9WgXcQ" : String).data = none →
      ("dQw4w9WgXcQ" : String).data.length = 11 ∧
      ("dQw4w9WgXcQ" : String).data.all isIdChar) :=
  ⟨by decide, claim_c6_amended "dQw4w9WgXcQ" "dQw4w9WgXcQ" (by decide)⟩

/-- C7 (counterexample): the resolver does not trim — surrounding
whitespace changes the result (the whitespace-wrapped bare identifier
is rejected while the bare identifier resolves). -/
theorem claim_c7_trim_counterexample :
    ¬ (extractVideoId " dQw4w9WgXcQ " = extractVideoId "dQw4w9WgXcQ") := by
  decide

/-- C7 (amended): no whitespace trimming happens inside the resolver
(the caller pre-trims), so a whitespace-wrapped bare identifier is
rejected; the query-parameter half of the claim holds — any suffix
starting at `&` after the identifier leaves the result unchanged, e.g.
a trailing timestamp fragment. -/
theorem claim_c7_amended :
    extractVideoId " dQw4w9WgXcQ " = none ∧
    (∀ rest : String,
      extractVideoId ("https://www.youtube.com/watch?v=dQw4w9WgXcQ&" ++ rest) =
        extractVideoId "https://www.youtube.com/watch?v=dQw4w9WgXcQ") ∧
    extractVideoId "https://www.youtube.com/watch?v=dQw4w9WgXcQ&t=42s" =
      some "dQw4w9WgXcQ" := by
  refine ⟨by decide, fun rest => rfl, by decide⟩

/-- C8: a run that completes (nothing thrown) and delivered at least
one snapshot returns exactly the collection delivered on the last
progress call. -/
theorem claim_c8_final_is_last_snapshot (env : Env) (urls : List String)
    (p : Params) (hok : (runExtract env urls p).2 = none)
    (hne : (runExtract env urls p).1.progress ≠ []) :
    (runExtract env urls p).1.progress.getLast? =
      some ((runExtract env urls p).1.allComments) := by
  rcases (runExtract_inv env urls p).2.2.2.2 with h | h
  · exact h
  · exact absurd h.1 hne

/-- Witness for C8: a one-reference, one-page run. -/
theorem claim_c8_final_is_last_snapshot_witness :
    (runExtract ⟨fun _ _ => .ok [⟨"T"⟩], fun _ _ _ => .ok ⟨[], none⟩⟩
        ["dQw4w9WgXcQ"] ⟨0, 0, "", none⟩).2 = none ∧
    (runExtract ⟨fun _ _ => .ok [⟨"T"⟩], fun _ _ _ => .ok ⟨[], none⟩⟩
        ["dQw4w9WgXcQ"] ⟨0, 0, "", none⟩).1.progress ≠ [] ∧
    (runExtract ⟨fun _ _ => .ok [⟨"T"⟩], fun _ _ _ => .ok ⟨[], none⟩⟩
        ["dQw4w9WgXcQ"] ⟨0, 0, "", none⟩).1.progress.getLast? =
      some ((runExtract ⟨fun _ _ => .ok [⟨"T"⟩], fun _ _ _ => .ok ⟨[], none⟩⟩
        ["dQw4w9WgXcQ"] ⟨0, 0, "", none⟩).1.allComments) :=
  ⟨by decide, by decide,
    claim_c8_final_is_last_snapshot _ _ _ (by decide) (by decide)⟩

/-- C9: the date filter is inclusive on both calendar bounds — a record
is kept exactly when its timestamp is at or after the start of
`startDate` (day·86400000 ms) and at or before 23:59:59.999 of
`endDate` (day·86400000 + 86399999 ms). -/
theorem claim_c9_inclusive_date_bounds (startDay endDay t : Nat) :
    dateKeep (startDay * msPerDay) (endDay * msPerDay + 86399999) t = true ↔
      startDay * msPerDay ≤ t ∧ t ≤ endDay * msPerDay + 86399999 := by
  simp [dateKeep]

/-- C10: an expression with a comma but only one non-empty clause after
comma splitting is not comma-split: the whole original (lowercased)
expression is evaluated as one expression, so `"foo,"` is a substring
test for the literal `"foo,"`, not `"foo"`. -/
theorem claim_c10_single_clause_comma :
    (∀ text kw : String,
      ¬ (kw = "" ∨ jsTrimChars kw.data = []) →
      ¬ 1 < (((splitComma (lowerChars kw.data)).map jsTrimChars).filter
          (· ≠ [])).length →
      matchesKeywords text kw =
        evaluateExpression (lowerChars text.data) (lowerChars kw.data)) ∧
    (∀ t : String,
      matchesKeywords t "foo," = jsIncludes (jsToLower t) "foo,") := by
  constructor
  · intro text kw h1 h2
    unfold matchesKeywords
    rw [if_neg h1]
    dsimp only
    rw [if_neg h2]
  · intro t
    show ((containsChars (lowerChars t.data) ['f', 'o', 'o', ','] && true)
        || false) = containsChars (lowerChars t.data) ['f', 'o', 'o', ',']
    simp

/-- Witness for C10: `"foo,"` matches a text containing `"foo,"` and
rejects a text containing only `"foo"`. -/
theorem claim_c10_single_clause_comma_witness :
    matchesKeywords "i said foo, ok" "foo," =
      evaluateExpression (lowerChars ("i said foo, ok" : String).data)
        (lowerChars ("foo," : String).data) ∧
    matchesKeywords "i said foo, ok" "foo," = true ∧
    matchesKeywords "i said foo ok" "foo," = false :=
  ⟨claim_c10_single_clause_comma.1 "i said foo, ok" "foo,"
      (by decide) (by decide),
    by decide, by decide⟩

end YTC
